import Mathlib

/-!
Verification of the LLM-Summarizer repository core: text chunking
(src/modules/text_processor.py, delegating to the langchain
RecursiveCharacterTextSplitter dependency), the summarization
orchestrator and quiz parser (src/modules/ai_engine.py), and the
end-to-end pipeline (src/app.py process_content).

Python strings are modelled as lists of characters (PyStr); machine
integers are Nat/Int (Python integers are unbounded, so no wrap-around
modelling is needed).
-/

namespace Summarizer

/-- Model of a Python string: a sequence of code points. -/
abbrev PyStr := List Char

/-- Whitespace characters recognised by Python str.strip() (ASCII range;
the Unicode space characters never occur in the inputs considered here). -/
def isPyWs (c : Char) : Bool :=
  c = ' ' || c = '\t' || c = '\n' || c = '\r' || c = '\x0b' || c = '\x0c'

/-- Python str.strip(): drop leading and trailing whitespace. -/
def pyStrip (s : PyStr) : PyStr :=
  ((s.dropWhile isPyWs).reverse.dropWhile isPyWs).reverse

/-- Decidable prefix test on character lists (re.search anchoring helper). -/
def isPrefixL : PyStr → PyStr → Bool
  | [], _ => true
  | _ :: _, [] => false
  | a :: as, b :: bs => if a = b then isPrefixL as bs else false

/-- Substring occurrence test: models re.search of an escaped literal
separator inside the text (langchain _split_text separator selection). -/
def containsL (sep : PyStr) : PyStr → Bool
  | [] => isPrefixL sep []
  | c :: rest => isPrefixL sep (c :: rest) || containsL sep rest

/-- Scanner for langchain _split_text_with_regex with keep_separator=True:
re.split on the captured literal separator, with each separator re-attached
to the start of the piece that follows it.  The fuel argument bounds the
scan; fuel at least the text length makes the fallback case unreachable. -/
def splitKeepAux (sep : PyStr) : Nat → PyStr → PyStr → List PyStr
  | _, [], acc => [acc.reverse]
  | 0, text, acc => [acc.reverse ++ text]
  | fuel + 1, c :: rest, acc =>
    if isPrefixL sep (c :: rest) then
      acc.reverse :: splitKeepAux sep fuel (List.drop sep.length (c :: rest)) sep.reverse
    else
      splitKeepAux sep fuel rest (c :: acc)

/-- All pieces produced by re.split with the separator kept, before the
empty-string filter. -/
def splitKeepRaw (sep text : PyStr) : List PyStr :=
  splitKeepAux sep text.length text []

/-- Test for the empty-string filter at the end of _split_text_with_regex. -/
def nonEmptyPiece : PyStr → Bool
  | [] => false
  | _ :: _ => true

/-- The langchain _split_text_with_regex result for a nonempty literal
separator: pieces with separators attached in front, empties dropped. -/
def splitKeep (sep text : PyStr) : List PyStr :=
  (splitKeepRaw sep text).filter nonEmptyPiece

/-- The langchain _split_text_with_regex result for the empty separator:
list(text), i.e. one piece per character (all nonempty, so the final
empty filter is a no-op). -/
def charSplits (text : PyStr) : List PyStr :=
  text.map (fun c => [c])

/-- Python separator.join: the pieces with the separator between
consecutive ones. -/
def joinSep (sep : PyStr) : List PyStr → PyStr
  | [] => []
  | [d] => d
  | d :: rest => d ++ sep ++ joinSep sep rest

/-- Python separator.join followed by str.strip (strip_whitespace=True is
the langchain default used by chunk_text); None (modelled as none) when
the stripped text is empty.  Translates langchain TextSplitter._join_docs. -/
def joinDocs (sep : PyStr) (docs : List PyStr) : Option PyStr :=
  if pyStrip (joinSep sep docs) = [] then none else some (pyStrip (joinSep sep docs))

/-- Sum of the piece lengths currently buffered plus the separators between
them — the quantity the langchain merge loop tracks in its total variable. -/
def bufTotal (sepLen : Int) (cur : List PyStr) : Int :=
  match cur with
  | [] => 0
  | [c] => (c.length : Int)
  | c :: rest => (c.length : Int) + sepLen + bufTotal sepLen rest

/-- The pop-from-the-front while loop inside langchain _merge_splits: keep
removing the oldest buffered piece while the buffer exceeds the overlap, or
while adding the next piece would exceed the chunk size and the buffer is
nonempty.  In the source the loop body indexes current_doc[0]; when the
buffer is empty the tracked total is 0 and the loop condition is false, so
the empty case below simply returns. -/
def shrinkLoop (cs co : Nat) (sepLen dLen : Int) : List PyStr → Int → List PyStr × Int
  | [], total => ([], total)
  | c :: rest, total =>
    if total > (co : Int) ∨ (total + dLen + sepLen > (cs : Int) ∧ total > 0) then
      shrinkLoop cs co sepLen dLen rest
        (total - ((c.length : Int) + (if rest = [] then 0 else sepLen)))
    else (c :: rest, total)

/-- Main loop of langchain TextSplitter._merge_splits: greedily buffer
pieces until the chunk size would be exceeded, then emit the joined buffer
and shrink it down to the configured overlap before continuing. -/
def mergeAux (cs co : Nat) (sep : PyStr) : List PyStr → List PyStr → Int → List PyStr
  | [], cur, _total => (joinDocs sep cur).toList
  | d :: ds, cur, total =>
    let dLen : Int := d.length
    let sepLen : Int := sep.length
    if total + dLen + (if cur = [] then 0 else sepLen) > (cs : Int) then
      match cur with
      | [] => mergeAux cs co sep ds [d] (total + dLen)
      | c0 :: curRest =>
        let flushed := (joinDocs sep (c0 :: curRest)).toList
        let shrunk := shrinkLoop cs co sepLen dLen (c0 :: curRest) total
        flushed ++ mergeAux cs co sep ds (shrunk.1 ++ [d])
          (shrunk.2 + dLen + (if shrunk.1 = [] then 0 else sepLen))
    else
      mergeAux cs co sep ds (cur ++ [d])
        (total + dLen + (if cur = [] then 0 else sepLen))

/-- Entry point of langchain TextSplitter._merge_splits. -/
def mergeSplits (cs co : Nat) (sep : PyStr) (splits : List PyStr) : List PyStr :=
  mergeAux cs co sep splits [] 0

/-- Good/bad loop of langchain RecursiveCharacterTextSplitter._split_text:
pieces shorter than the chunk size are buffered and merged; larger pieces
flush the buffer and are either appended verbatim (no separators left) or
split recursively by the supplied handler.  Because keep_separator=True the
merge separator is always the empty string. -/
def processSplits (cs co : Nat) (handler : Option (PyStr → List PyStr)) :
    List PyStr → List PyStr → List PyStr
  | [], good => if good = [] then [] else mergeSplits cs co [] good
  | s :: ss, good =>
    if s.length < cs then processSplits cs co handler ss (good ++ [s])
    else
      (if good = [] then [] else mergeSplits cs co [] good) ++
        (match handler with
          | none => [s]
          | some f => f s) ++
        processSplits cs co handler ss []

/-- Recursion of langchain RecursiveCharacterTextSplitter._split_text over
the separator priority list: pick the first separator that is empty or
occurs in the text, split with it, and recurse on oversized pieces with the
remaining separators.  The source indexes separators[-1] and so raises on
an empty list; that case is unreachable from chunk_text and is mapped to
the whole text. -/
def splitText (cs co : Nat) : List PyStr → PyStr → List PyStr
  | [], text => [text]
  | sep :: rest, text =>
    if sep = [] then
      processSplits cs co none (charSplits text) []
    else if containsL sep text then
      processSplits cs co
        (if rest = [] then none else some (fun s => splitText cs co rest s))
        (splitKeep sep text) []
    else
      splitText cs co rest text

/-- The separator priority list passed by chunk_text
(src/modules/text_processor.py line 37). -/
def pySeparators : List PyStr :=
  [['\n', '\n'], ['\n'], ['.', ' '], [' '], []]

/-- CHUNK_SIZE from src/config.py. -/
def CHUNK_SIZE : Nat := 4000

/-- CHUNK_OVERLAP from src/config.py. -/
def CHUNK_OVERLAP : Nat := 200

/-- DEFAULT_NUM_QUESTIONS from src/config.py. -/
def DEFAULT_NUM_QUESTIONS : Nat := 5

/-- chunk_text from src/modules/text_processor.py: defaults for omitted
sizes come from config; a text no longer than the chunk size is returned
as the single chunk, otherwise the recursive splitter runs. -/
def chunk_text (text : String) (chunkSize chunkOverlap : Option Nat) : List String :=
  let cs := chunkSize.getD CHUNK_SIZE
  let co := chunkOverlap.getD CHUNK_OVERLAP
  if text.length ≤ cs then [text]
  else (splitText cs co pySeparators text.data).map String.mk

/-! JSON values and a model of Python json.loads, used by
parse_quiz_response in src/modules/ai_engine.py.  Integer literals are
exact; a decimal or exponent literal is kept as an exact mantissa/exponent
pair (its float rounding never matters below, only its zeroness). -/

/-- Values produced by Python json.loads. -/
inductive Json where
  | null
  | bool (b : Bool)
  | num (n : Int)
  | fnum (m : Int) (e : Int)
  | nan
  | inf (neg : Bool)
  | str (s : String)
  | arr (elems : List Json)
  | obj (fields : List (String × Json))
deriving Repr

/-- JSON whitespace skipped by the Python decoder between tokens. -/
def isJsonWs (c : Char) : Bool :=
  c = ' ' || c = '\t' || c = '\n' || c = '\r'

/-- Skip JSON whitespace. -/
def skipWs (cs : List Char) : List Char :=
  cs.dropWhile isJsonWs

/-- Value of a hexadecimal digit, for string \u escapes. -/
def hexVal (c : Char) : Option Nat :=
  if '0'.toNat ≤ c.toNat ∧ c.toNat ≤ '9'.toNat then some (c.toNat - '0'.toNat)
  else if 'a'.toNat ≤ c.toNat ∧ c.toNat ≤ 'f'.toNat then some (c.toNat - 'a'.toNat + 10)
  else if 'A'.toNat ≤ c.toNat ∧ c.toNat ≤ 'F'.toNat then some (c.toNat - 'A'.toNat + 10)
  else none

/-- Body of a JSON string after the opening quote: returns the decoded
characters and the input remaining after the closing quote.  Mirrors the
strict Python scanner: raw control characters are rejected, the standard
escapes and \uXXXX are decoded (surrogate-pair recombination is not
modelled; no input below uses it). -/
def parseStringBody : List Char → Option (List Char × List Char)
  | [] => none
  | '"' :: rest => some ([], rest)
  | '\\' :: rest =>
    match rest with
    | '"' :: r => (parseStringBody r).map (fun p => ('"' :: p.1, p.2))
    | '\\' :: r => (parseStringBody r).map (fun p => ('\\' :: p.1, p.2))
    | '/' :: r => (parseStringBody r).map (fun p => ('/' :: p.1, p.2))
    | 'b' :: r => (parseStringBody r).map (fun p => ('\x08' :: p.1, p.2))
    | 'f' :: r => (parseStringBody r).map (fun p => ('\x0c' :: p.1, p.2))
    | 'n' :: r => (parseStringBody r).map (fun p => ('\n' :: p.1, p.2))
    | 'r' :: r => (parseStringBody r).map (fun p => ('\r' :: p.1, p.2))
    | 't' :: r => (parseStringBody r).map (fun p => ('\t' :: p.1, p.2))
    | 'u' :: h1 :: h2 :: h3 :: h4 :: r =>
      match hexVal h1, hexVal h2, hexVal h3, hexVal h4 with
      | some a, some b, some c, some d =>
        (parseStringBody r).map
          (fun p => (Char.ofNat (((a * 16 + b) * 16 + c) * 16 + d) :: p.1, p.2))
      | _, _, _, _ => none
    | _ => none
  | c :: rest =>
    if c.toNat < 0x20 then none
    else (parseStringBody rest).map (fun p => (c :: p.1, p.2))

/-- Decimal digit test. -/
def isDigitC (c : Char) : Bool :=
  '0'.toNat ≤ c.toNat ∧ c.toNat ≤ '9'.toNat

/-- Read a nonempty run of decimal digits, returning its value, its digit
count and the rest of the input. -/
def readDigits : List Char → Nat → Nat → Option (Nat × Nat × List Char)
  | c :: rest, acc, k =>
    if isDigitC c then readDigits rest (acc * 10 + (c.toNat - '0'.toNat)) (k + 1)
    else if k = 0 then none else some (acc, k, c :: rest)
  | [], acc, k => if k = 0 then none else some (acc, k, [])

/-- Integer part of a JSON number: 0, or a nonzero leading digit followed
by more digits (the Python NUMBER_RE forbids other leading zeros). -/
def readIntPart : List Char → Option (Nat × List Char)
  | '0' :: rest => some (0, rest)
  | c :: rest =>
    if isDigitC c then
      match readDigits rest (c.toNat - '0'.toNat) 1 with
      | some (v, _, r) => some (v, r)
      | none => none
    else none
  | [] => none

/-- Optional fraction part: a dot followed by at least one digit. -/
def readFrac : List Char → Option (Nat × Nat) × List Char
  | '.' :: rest =>
    match readDigits rest 0 0 with
    | some (f, k, r) => (some (f, k), r)
    | none => (none, '.' :: rest)
  | cs => (none, cs)

/-- Optional exponent part: e or E, an optional sign, then digits. -/
def readExp : List Char → Option Int × List Char
  | c :: rest =>
    if c = 'e' ∨ c = 'E' then
      match rest with
      | '-' :: r2 =>
        (match readDigits r2 0 0 with
          | some (x, _, r3) => (some (-(x : Int)), r3)
          | none => (none, c :: rest))
      | '+' :: r2 =>
        (match readDigits r2 0 0 with
          | some (x, _, r3) => (some ((x : Int)), r3)
          | none => (none, c :: rest))
      | r2 =>
        (match readDigits r2 0 0 with
          | some (x, _, r3) => (some ((x : Int)), r3)
          | none => (none, c :: rest))
    else (none, c :: rest)
  | [] => (none, [])

/-- Number, NaN, Infinity and -Infinity tokens of the Python scanner.  A
plain integer literal stays an Int; a fraction or exponent makes a float,
modelled exactly as mantissa times a power of ten. -/
def parseNumber (cs : List Char) : Option (Json × List Char) :=
  match cs with
  | 'N' :: 'a' :: 'N' :: r => some (Json.nan, r)
  | 'I' :: 'n' :: 'f' :: 'i' :: 'n' :: 'i' :: 't' :: 'y' :: r => some (Json.inf false, r)
  | '-' :: 'I' :: 'n' :: 'f' :: 'i' :: 'n' :: 'i' :: 't' :: 'y' :: r => some (Json.inf true, r)
  | _ =>
    let signed := match cs with
      | '-' :: r => (true, r)
      | _ => (false, cs)
    match readIntPart signed.2 with
    | none => none
    | some (i, cs2) =>
      let fr := readFrac cs2
      let ex := readExp fr.2
      match fr.1, ex.1 with
      | none, none => some (Json.num (if signed.1 then -(i : Int) else (i : Int)), ex.2)
      | fopt, xopt =>
        let k : Nat := match fopt with | some (_, k) => k | none => 0
        let f := match fopt with | some (f, _) => f | none => 0
        let x := match xopt with | some x => x | none => 0
        let mag : Int := (i : Int) * (10 : Int) ^ k + (f : Int)
        some (Json.fnum (if signed.1 then -mag else mag) (x - (k : Int)), ex.2)

mutual

/-- One JSON value starting at the given input (no leading-whitespace
skip, as in the Python scanner); fuel bounds the recursion and is chosen
large enough by jsonLoads that it never runs out. -/
def parseValue : Nat → List Char → Option (Json × List Char)
  | 0, _ => none
  | fuel + 1, cs =>
    match cs with
    | [] => none
    | '"' :: rest => (parseStringBody rest).map (fun p => (Json.str (String.mk p.1), p.2))
    | '[' :: rest =>
      (match skipWs rest with
        | ']' :: r => some (Json.arr [], r)
        | cs1 =>
          match parseElems fuel cs1 with
          | some (es, r) => some (Json.arr es, r)
          | none => none)
    | '{' :: rest =>
      (match skipWs rest with
        | '}' :: r => some (Json.obj [], r)
        | cs1 =>
          match parseMembers fuel cs1 with
          | some (ms, r) => some (Json.obj ms, r)
          | none => none)
    | 't' :: 'r' :: 'u' :: 'e' :: r => some (Json.bool true, r)
    | 'f' :: 'a' :: 'l' :: 's' :: 'e' :: r => some (Json.bool false, r)
    | 'n' :: 'u' :: 'l' :: 'l' :: r => some (Json.null, r)
    | _ => parseNumber cs

/-- Comma-separated array elements up to the closing bracket. -/
def parseElems : Nat → List Char → Option (List Json × List Char)
  | 0, _ => none
  | fuel + 1, cs =>
    match parseValue fuel cs with
    | none => none
    | some (v, r) =>
      match skipWs r with
      | ']' :: r2 => some ([v], r2)
      | ',' :: r2 =>
        (match parseElems fuel (skipWs r2) with
          | some (es, r3) => some (v :: es, r3)
          | none => none)
      | _ => none

/-- Comma-separated object members up to the closing brace. -/
def parseMembers : Nat → List Char → Option (List (String × Json) × List Char)
  | 0, _ => none
  | fuel + 1, cs =>
    match cs with
    | '"' :: rest =>
      (match parseStringBody rest with
        | none => none
        | some (key, r) =>
          match skipWs r with
          | ':' :: r2 =>
            (match parseValue fuel (skipWs r2) with
              | none => none
              | some (v, r3) =>
                match skipWs r3 with
                | '}' :: r4 => some ([(String.mk key, v)], r4)
                | ',' :: r4 =>
                  (match parseMembers fuel (skipWs r4) with
                    | some (ms, r5) => some ((String.mk key, v) :: ms, r5)
                    | none => none)
                | _ => none)
          | _ => none)
    | _ => none

end

/-- Python json.loads: skip surrounding whitespace, decode one value, and
reject any trailing data.  Decode failures raise JSONDecodeError in the
source; here they are none. -/
def jsonLoads (s : String) : Option Json :=
  match parseValue (2 * s.length + 4) (skipWs s.data) with
  | some (v, rest) => if skipWs rest = [] then some v else none
  | none => none

/-- Python truthiness of a decoded JSON value, as tested by the
if quiz: branch of generate_quiz. -/
def pyTruthy : Json → Bool
  | Json.null => false
  | Json.bool b => b
  | Json.num n => decide (n ≠ 0)
  | Json.fnum m _ => decide (m ≠ 0)
  | Json.nan => true
  | Json.inf _ => true
  | Json.str s => decide (s ≠ "")
  | Json.arr [] => false
  | Json.arr (_ :: _) => true
  | Json.obj [] => false
  | Json.obj (_ :: _) => true

/-- Span matched by re.search of the pattern bracket-anything-bracket
(the regex at src/modules/ai_engine.py line 280): from the first opening
bracket to the last closing bracket, when the latter comes after the
former.  Greedy, so nested or unrelated brackets in between are included. -/
def bracketSpan (cs : List Char) : Option (List Char) :=
  match cs.findIdx? (fun c => c = '['), (cs.reverse.findIdx? (fun c => c = ']')) with
  | some i, some krev =>
    let j := cs.length - 1 - krev
    if i < j then some ((cs.drop i).take (j - i + 1)) else none
  | _, _ => none

/-- parse_quiz_response from src/modules/ai_engine.py: try json.loads on
the whole response; on failure, extract the greedy bracketed span and try
json.loads on it; otherwise None.  The source conflates a decoded JSON
null with the failure return value None; the Option layer here keeps them
apart, which no caller can observe (both are falsy). -/
def parse_quiz_response (response : String) : Option Json :=
  match jsonLoads response with
  | some v => some v
  | none =>
    match bracketSpan response.data with
    | some span => jsonLoads (String.mk span)
    | none => none

/-- The parsing policy exactly as the specification words it: first try to
decode the entire response; if that fails, extract the broadest bracketed
span and try to decode that substring; if both fail, no value.  Stated
separately from parse_quiz_response so the code can be proved to refine
the spec sentence. -/
def parsePolicySpec (response : String) : Option Json :=
  (jsonLoads response).orElse
    (fun _ => (bracketSpan response.data).bind (fun span => jsonLoads (String.mk span)))

/-! Model registry and credential checks from src/config.py and get_llm
in src/modules/ai_engine.py. -/

/-- One entry of AVAILABLE_MODELS in src/config.py. -/
structure ModelConfig where
  provider : String
  modelId : String
  apiKeyEnv : String
deriving Repr, DecidableEq

/-- AVAILABLE_MODELS from src/config.py. -/
def AVAILABLE_MODELS : List (String × ModelConfig) :=
  [("Gemini 2.5 Pro", ⟨"gemini", "gemini-2.5-pro", "GEMINI_API_KEY"⟩),
   ("Gemini 2.5 Flash", ⟨"gemini", "gemini-2.5-flash", "GEMINI_API_KEY"⟩),
   ("Gemini 1.5 Flash", ⟨"gemini", "gemini-1.5-flash", "GEMINI_API_KEY"⟩),
   ("DeepSeek Chat", ⟨"deepseek", "deepseek-chat", "DEEPSEEK_API_KEY"⟩),
   ("DeepSeek Reasoner", ⟨"deepseek", "deepseek-reasoner", "DEEPSEEK_API_KEY"⟩)]

/-- Environment-derived credentials (os.getenv with default empty string
in src/config.py); an empty string is a missing key. -/
structure Config where
  geminiKey : String
  deepseekKey : String
deriving Repr, DecidableEq

/-- get_llm from src/modules/ai_engine.py: default the model name, look it
up in the registry, and require the provider credential; raising is
modelled as Except.error carrying the message. -/
def get_llm (cfg : Config) (modelName : Option String) : Except String Unit :=
  let name := modelName.getD "Gemini 2.5 Pro"
  match (AVAILABLE_MODELS.find? (fun p => p.1 = name)).map Prod.snd with
  | none => Except.error ("Unknown model: " ++ name)
  | some mc =>
    if mc.provider = "gemini" then
      if cfg.geminiKey = "" then
        Except.error "GEMINI_API_KEY not found. Please set it in your .env file."
      else Except.ok ()
    else if mc.provider = "deepseek" then
      if cfg.deepseekKey = "" then
        Except.error "DEEPSEEK_API_KEY not found. Please set it in your .env file."
      else Except.ok ()
    else Except.error ("Unknown provider: " ++ mc.provider)

/-! The orchestrator.  Each of the four PromptTemplate chains renders its
payload into a fixed template and invokes the model; the templates are
injective in their payloads, so a prompt is modelled as the template
constructor applied to the payload, and the model invocation as an oracle
from prompts to either a response or a raised provider error.  Every
function returns its result together with the list of prompts it actually
sent, in order. -/

/-- A rendered prompt: which of the four templates of
src/modules/ai_engine.py was used, and with which payload. -/
inductive Prompt where
  | summary (text : String)
  | chunkSummary (text : String)
  | combine (summaries : String)
  | quiz (summary : String) (numQuestions : Nat)
deriving Repr, DecidableEq

/-- The model invoker: chain.invoke either returns generated text or
raises a provider error. -/
abbrev LLM := Prompt → Except String String

/-- Result dictionary of summarize_text and summarize_long_text. -/
structure SummarizeResult where
  success : Bool
  summary : String
  error : Option String
  chunksProcessed : Option Nat
deriving Repr, DecidableEq

/-- The per-chunk loop of summarize_long_text: invoke the chunk-summary
chain on each chunk in order, stopping at the first raised error. -/
def summarizeChunksAux (llm : LLM) : List String → Except String (List String) × List Prompt
  | [] => (Except.ok [], [])
  | c :: cs =>
    let p := Prompt.chunkSummary c
    match llm p with
    | Except.error e => (Except.error e, [p])
    | Except.ok s =>
      let rest := summarizeChunksAux llm cs
      (match rest.1 with
        | Except.ok xs => Except.ok (s :: xs)
        | Except.error e => Except.error e, p :: rest.2)

/-- summarize_long_text from src/modules/ai_engine.py: chunk with size
8000 and overlap 500, summarize every chunk sequentially, join the chunk
summaries with the visible separator, and run the combine chain once; any
raised error is caught and becomes a failure dictionary. -/
def summarize_long_text (cfg : Config) (llm : LLM) (modelName : Option String)
    (text : String) : SummarizeResult × List Prompt :=
  match get_llm cfg modelName with
  | Except.error e =>
    ({ success := false, summary := "",
       error := some ("Error summarizing long text: " ++ e), chunksProcessed := none }, [])
  | Except.ok _ =>
    match summarizeChunksAux llm (chunk_text text (some 8000) (some 500)) with
    | (Except.error e, t) =>
      ({ success := false, summary := "",
         error := some ("Error summarizing long text: " ++ e), chunksProcessed := none }, t)
    | (Except.ok sums, t) =>
      match llm (Prompt.combine (String.intercalate "\n\n---\n\n" sums)) with
      | Except.error e =>
        ({ success := false, summary := "",
           error := some ("Error summarizing long text: " ++ e), chunksProcessed := none },
         t ++ [Prompt.combine (String.intercalate "\n\n---\n\n" sums)])
      | Except.ok fin =>
        ({ success := true, summary := fin, error := none,
           chunksProcessed := some (chunk_text text (some 8000) (some 500)).length },
         t ++ [Prompt.combine (String.intercalate "\n\n---\n\n" sums)])

/-- summarize_text from src/modules/ai_engine.py: validate the model,
divert texts longer than 30000 characters to the map-reduce path, and
otherwise run the single-shot summary chain once; any raised error is
caught and becomes a failure dictionary. -/
def summarize_text (cfg : Config) (llm : LLM) (modelName : Option String)
    (text : String) : SummarizeResult × List Prompt :=
  match get_llm cfg modelName with
  | Except.error e =>
    ({ success := false, summary := "",
       error := some ("Error generating summary: " ++ e), chunksProcessed := none }, [])
  | Except.ok _ =>
    if text.length > 30000 then
      summarize_long_text cfg llm modelName text
    else
      match llm (Prompt.summary text) with
      | Except.ok result =>
        ({ success := true, summary := result, error := none, chunksProcessed := none },
         [Prompt.summary text])
      | Except.error e =>
        ({ success := false, summary := "",
           error := some ("Error generating summary: " ++ e), chunksProcessed := none },
         [Prompt.summary text])

/-- Result dictionary of generate_quiz; on failure the quiz key holds the
empty Python list. -/
structure QuizResult where
  success : Bool
  quiz : Json
  error : Option String
deriving Repr

/-- generate_quiz from src/modules/ai_engine.py: default the question
count, validate the model, run the quiz chain once, parse the response,
and report success exactly when the parsed value is truthy; any raised
error is caught and becomes a failure dictionary. -/
def generate_quiz (cfg : Config) (llm : LLM) (modelName : Option String)
    (summary : String) (numQuestions : Option Nat) : QuizResult × List Prompt :=
  match get_llm cfg modelName with
  | Except.error e =>
    ({ success := false, quiz := Json.arr [],
       error := some ("Error generating quiz: " ++ e) }, [])
  | Except.ok _ =>
    match llm (Prompt.quiz summary (numQuestions.getD DEFAULT_NUM_QUESTIONS)) with
    | Except.error e =>
      ({ success := false, quiz := Json.arr [],
         error := some ("Error generating quiz: " ++ e) },
       [Prompt.quiz summary (numQuestions.getD DEFAULT_NUM_QUESTIONS)])
    | Except.ok result =>
      match parse_quiz_response result with
      | some v =>
        if pyTruthy v then
          ({ success := true, quiz := v, error := none },
           [Prompt.quiz summary (numQuestions.getD DEFAULT_NUM_QUESTIONS)])
        else
          ({ success := false, quiz := Json.arr [],
             error := some "Failed to parse quiz response. Please try again." },
           [Prompt.quiz summary (numQuestions.getD DEFAULT_NUM_QUESTIONS)])
      | none =>
        ({ success := false, quiz := Json.arr [],
           error := some "Failed to parse quiz response. Please try again." },
         [Prompt.quiz summary (numQuestions.getD DEFAULT_NUM_QUESTIONS)])

/-! The end-to-end pipeline: process_content from src/app.py.  Extraction
is an external collaborator (network and file parsing), so its outcome is
a parameter; the Streamlit display calls are elided and the session-state
record is the observable result. -/

/-- Outcome dictionary of the extractors (get_transcript_from_url or
parse_document). -/
structure ExtractResult where
  success : Bool
  text : String
  error : Option String
deriving Repr

/-- The st.session_state fields written by process_content. -/
structure SessionState where
  extractedText : Option String
  summary : Option String
  quiz : Option Json
deriving Repr

/-- process_content from src/app.py: clear the state, stop if extraction
failed, stop (keeping no summary) if summarization failed, and attach the
quiz only if quiz generation succeeded — a quiz failure leaves the summary
in place.  Returned alongside the final state is the list of prompts sent
to the model. -/
def process_content (cfg : Config) (llm : LLM) (extractResult : ExtractResult)
    (numQuestions : Nat) (modelName : String) : SessionState × List Prompt :=
  if extractResult.success then
    match summarize_text cfg llm (some modelName) extractResult.text with
    | (sres, strace) =>
      if sres.success then
        match generate_quiz cfg llm (some modelName) sres.summary (some numQuestions) with
        | (qres, qtrace) =>
          if qres.success then
            ({ extractedText := some extractResult.text, summary := some sres.summary,
               quiz := some qres.quiz }, strace ++ qtrace)
          else
            ({ extractedText := some extractResult.text, summary := some sres.summary,
               quiz := none }, strace ++ qtrace)
      else
        ({ extractedText := some extractResult.text, summary := none, quiz := none }, strace)
  else ({ extractedText := none, summary := none, quiz := none }, [])

/-! Helper lemmas. -/

/-- A string append whose left part is nonempty is nonempty. -/
theorem append_left_ne_empty (a e : String) (ha : 0 < a.length) : a ++ e ≠ "" := by
  intro h
  have h2 := congrArg String.length h
  rw [String.length_append] at h2
  have h3 : ("" : String).length = 0 := rfl
  rw [h3] at h2
  omega

/-- With an everywhere-succeeding model, the chunk loop returns one chunk
summary per chunk and sends one chunk prompt per chunk, in order. -/
theorem chunksAux_map (f : Prompt → String) (cs : List String) :
    summarizeChunksAux (fun p => Except.ok (f p)) cs =
      (Except.ok (cs.map (fun c => f (Prompt.chunkSummary c))), cs.map Prompt.chunkSummary) := by
  induction cs with
  | nil => rfl
  | cons c rest ih => simp [summarizeChunksAux, ih]

/-- If the chunk loop succeeded, every prompt it sent got a response. -/
theorem chunksAux_ok_trace (llm : LLM) (cs : List String) (xs : List String)
    (h : (summarizeChunksAux llm cs).1 = Except.ok xs) :
    ∀ p ∈ (summarizeChunksAux llm cs).2, ∃ s, llm p = Except.ok s := by
  induction cs generalizing xs with
  | nil => simp [summarizeChunksAux]
  | cons c rest ih =>
    cases hl : llm (Prompt.chunkSummary c) with
    | error e => simp [summarizeChunksAux, hl] at h
    | ok s =>
      cases hr : (summarizeChunksAux llm rest).1 with
      | error e =>
        rw [summarizeChunksAux, hl] at h
        simp [hr] at h
      | ok xs2 =>
        intro p hp
        rw [summarizeChunksAux, hl] at hp
        simp at hp
        rcases hp with hp | hp
        · exact ⟨s, hp ▸ hl⟩
        · exact ih xs2 hr p hp

/-- Every prompt sent by the chunk loop is a chunk-summary prompt. -/
theorem chunksAux_trace_shape (llm : LLM) (cs : List String) :
    ∀ p ∈ (summarizeChunksAux llm cs).2, ∃ c, p = Prompt.chunkSummary c := by
  induction cs with
  | nil => simp [summarizeChunksAux]
  | cons c rest ih =>
    cases hl : llm (Prompt.chunkSummary c) with
    | error e =>
      rw [summarizeChunksAux, hl]
      simp
    | ok s =>
      intro p hp
      rw [summarizeChunksAux, hl] at hp
      simp at hp
      rcases hp with hp | hp
      · exact ⟨c, hp⟩
      · exact ih p hp

/-- If some prompt sent by summarize_long_text raised, the call returns
the failure dictionary: unsuccessful, empty summary, nonempty message. -/
theorem long_fail_of_error (cfg : Config) (llm : LLM) (modelName : Option String)
    (text : String) (hok : get_llm cfg modelName = Except.ok ()) (p : Prompt) (e : String)
    (hp : p ∈ (summarize_long_text cfg llm modelName text).2) (he : llm p = Except.error e) :
    (summarize_long_text cfg llm modelName text).1.success = false ∧
    (summarize_long_text cfg llm modelName text).1.summary = "" ∧
    ∃ m, (summarize_long_text cfg llm modelName text).1.error = some m ∧ m ≠ "" := by
  rcases hm : summarizeChunksAux llm (chunk_text text (some 8000) (some 500)) with ⟨r, t⟩
  cases r with
  | error e0 =>
    have heq : summarize_long_text cfg llm modelName text =
        ({ success := false, summary := "",
           error := some ("Error summarizing long text: " ++ e0), chunksProcessed := none },
         t) := by
      simp only [summarize_long_text, hok, hm]
    rw [heq]
    exact ⟨rfl, rfl, "Error summarizing long text: " ++ e0, rfl,
      append_left_ne_empty _ _ (by decide)⟩
  | ok sums =>
    cases hc : llm (Prompt.combine (String.intercalate "\n\n---\n\n" sums)) with
    | error e1 =>
      have heq : summarize_long_text cfg llm modelName text =
          ({ success := false, summary := "",
             error := some ("Error summarizing long text: " ++ e1), chunksProcessed := none },
           t ++ [Prompt.combine (String.intercalate "\n\n---\n\n" sums)]) := by
        simp only [summarize_long_text, hok, hm, hc]
      rw [heq]
      exact ⟨rfl, rfl, "Error summarizing long text: " ++ e1, rfl,
        append_left_ne_empty _ _ (by decide)⟩
    | ok fin =>
      exfalso
      have heq : summarize_long_text cfg llm modelName text =
          ({ success := true, summary := fin, error := none,
             chunksProcessed := some (chunk_text text (some 8000) (some 500)).length },
           t ++ [Prompt.combine (String.intercalate "\n\n---\n\n" sums)]) := by
        simp only [summarize_long_text, hok, hm, hc]
      rw [heq] at hp
      simp at hp
      rcases hp with hp | hp
      · have h1 : (summarizeChunksAux llm (chunk_text text (some 8000) (some 500))).1 =
            Except.ok sums := by rw [hm]
        have h2 : p ∈ (summarizeChunksAux llm (chunk_text text (some 8000) (some 500))).2 := by
          rw [hm]
          exact hp
        rcases chunksAux_ok_trace llm _ sums h1 p h2 with ⟨s, hs⟩
        rw [hs] at he
        exact Except.noConfusion he
      · rw [hp] at he
        rw [he] at hc
        exact Except.noConfusion hc

/-- Every prompt sent by summarize_long_text is a chunk-summary or a
combine prompt, never a quiz prompt. -/
theorem long_trace_no_quiz (cfg : Config) (llm : LLM) (modelName : Option String)
    (text : String) :
    ∀ p ∈ (summarize_long_text cfg llm modelName text).2, ∀ s n, p ≠ Prompt.quiz s n := by
  intro p hp s n
  cases hok : get_llm cfg modelName with
  | error e =>
    have heq : summarize_long_text cfg llm modelName text =
        ({ success := false, summary := "",
           error := some ("Error summarizing long text: " ++ e), chunksProcessed := none },
         []) := by
      simp only [summarize_long_text, hok]
    rw [heq] at hp
    simp at hp
  | ok u =>
    rcases hm : summarizeChunksAux llm (chunk_text text (some 8000) (some 500)) with ⟨r, t⟩
    have ht : ∀ q ∈ t, ∃ c, q = Prompt.chunkSummary c := by
      intro q hq
      apply chunksAux_trace_shape llm _ q
      rw [hm]
      exact hq
    cases r with
    | error e0 =>
      have heq : summarize_long_text cfg llm modelName text =
          ({ success := false, summary := "",
             error := some ("Error summarizing long text: " ++ e0), chunksProcessed := none },
           t) := by
        simp only [summarize_long_text, hok, hm]
      rw [heq] at hp
      simp at hp
      rcases ht p hp with ⟨c, hc⟩
      rw [hc]
      exact fun h => Prompt.noConfusion h
    | ok sums =>
      cases hc2 : llm (Prompt.combine (String.intercalate "\n\n---\n\n" sums)) with
      | error e1 =>
        have heq : summarize_long_text cfg llm modelName text =
            ({ success := false, summary := "",
               error := some ("Error summarizing long text: " ++ e1), chunksProcessed := none },
             t ++ [Prompt.combine (String.intercalate "\n\n---\n\n" sums)]) := by
          simp only [summarize_long_text, hok, hm, hc2]
        rw [heq] at hp
        simp at hp
        rcases hp with hp | hp
        · rcases ht p hp with ⟨c, hc⟩
          rw [hc]
          exact fun h => Prompt.noConfusion h
        · rw [hp]
          exact fun h => Prompt.noConfusion h
      | ok fin =>
        have heq : summarize_long_text cfg llm modelName text =
            ({ success := true, summary := fin, error := none,
               chunksProcessed := some (chunk_text text (some 8000) (some 500)).length },
             t ++ [Prompt.combine (String.intercalate "\n\n---\n\n" sums)]) := by
          simp only [summarize_long_text, hok, hm, hc2]
        rw [heq] at hp
        simp at hp
        rcases hp with hp | hp
        · rcases ht p hp with ⟨c, hc⟩
          rw [hc]
          exact fun h => Prompt.noConfusion h
        · rw [hp]
          exact fun h => Prompt.noConfusion h

/-- Every prompt sent by summarize_text is a summarization prompt, never
a quiz prompt. -/
theorem summ_trace_no_quiz (cfg : Config) (llm : LLM) (modelName : Option String)
    (text : String) :
    ∀ p ∈ (summarize_text cfg llm modelName text).2, ∀ s n, p ≠ Prompt.quiz s n := by
  intro p hp s n
  unfold summarize_text at hp
  cases hok : get_llm cfg modelName with
  | error e =>
    rw [hok] at hp
    simp at hp
  | ok u =>
    rw [hok] at hp
    by_cases hlen : text.length > 30000
    · rw [if_pos hlen] at hp
      exact long_trace_no_quiz cfg llm modelName text p hp s n
    · rw [if_neg hlen] at hp
      cases hl : llm (Prompt.summary text) with
      | ok r =>
        rw [hl] at hp
        simp at hp
        rw [hp]
        exact fun h => Prompt.noConfusion h
      | error e =>
        rw [hl] at hp
        simp at hp
        rw [hp]
        exact fun h => Prompt.noConfusion h

/-! Helper lemmas about the chunker. -/

/-- Dropping the empty pieces does not change the concatenation. -/
theorem flatten_filter_nonEmpty (l : List PyStr) :
    (l.filter nonEmptyPiece).flatten = l.flatten := by
  induction l with
  | nil => rfl
  | cons s ss ih =>
    cases s with
    | nil =>
      have h : nonEmptyPiece ([] : PyStr) = false := rfl
      rw [List.filter_cons, h]
      simpa using ih
    | cons c t =>
      have h : nonEmptyPiece (c :: t) = true := rfl
      rw [List.filter_cons, h]
      simp only [if_true, List.flatten_cons, ih]

/-- Concatenating the single-character pieces gives back the text. -/
theorem charSplits_flatten (l : PyStr) : (charSplits l).flatten = l := by
  induction l with
  | nil => rfl
  | cons c rest ih =>
    have h : charSplits (c :: rest) = [c] :: charSplits rest := rfl
    rw [h, List.flatten_cons, ih]
    rfl

/-- Soundness of the prefix test: the tail after the match restores the
input. -/
theorem isPrefixL_drop (sep : PyStr) :
    ∀ t, isPrefixL sep t = true → sep ++ t.drop sep.length = t := by
  induction sep with
  | nil =>
    intro t _
    simp
  | cons a as ih =>
    intro t h
    cases t with
    | nil => simp [isPrefixL] at h
    | cons b bs =>
      rw [isPrefixL] at h
      by_cases hab : a = b
      · rw [if_pos hab] at h
        subst hab
        simp [ih bs h]
      · rw [if_neg hab] at h
        exact absurd h (by simp)

/-- The keep-separator scanner pieces concatenate to the scanned text
(with the pending accumulator in front). -/
theorem splitKeepAux_flatten (sep : PyStr) :
    ∀ fuel text acc, (splitKeepAux sep fuel text acc).flatten = acc.reverse ++ text := by
  intro fuel
  induction fuel with
  | zero =>
    intro text acc
    cases text with
    | nil => simp [splitKeepAux]
    | cons c rest => simp [splitKeepAux]
  | succ fuel ih =>
    intro text acc
    cases text with
    | nil => simp [splitKeepAux]
    | cons c rest =>
      rw [splitKeepAux]
      by_cases hpre : isPrefixL sep (c :: rest) = true
      · rw [if_pos hpre]
        rw [List.flatten_cons, ih]
        simp [isPrefixL_drop sep (c :: rest) hpre]
      · rw [if_neg hpre, ih]
        simp

/-- The pieces produced for a nonempty literal separator concatenate to
the text. -/
theorem splitKeep_flatten (sep text : PyStr) : (splitKeep sep text).flatten = text := by
  unfold splitKeep splitKeepRaw
  rw [flatten_filter_nonEmpty, splitKeepAux_flatten]
  rfl

/-- The head surviving dropWhile fails the predicate. -/
theorem dropWhile_head_false (p : Char → Bool) :
    ∀ l : List Char, ∀ a t, l.dropWhile p = a :: t → p a = false := by
  intro l
  induction l with
  | nil =>
    intro a t h
    exact absurd h (by simp)
  | cons c rest ih =>
    intro a t h
    rw [List.dropWhile_cons] at h
    by_cases hc : p c = true
    · rw [if_pos hc] at h
      exact ih a t h
    · rw [if_neg hc] at h
      cases h
      exact Bool.not_eq_true _ |>.mp hc

/-- A nonempty prefix starts with the same head as the longer list. -/
theorem prefix_head_eq {l1 l2 : List Char} (h : l1 <+: l2) :
    ∀ a t, l1 = a :: t → ∃ t2, l2 = a :: t2 := by
  rcases h with ⟨r, rfl⟩
  intro a t h1
  subst h1
  exact ⟨t ++ r, by simp⟩

/-- A suffix of a reversed list reverses to a prefix of the list. -/
theorem reverse_prefix_of_suffix {l1 l2 : List Char} (h : l1 <:+ l2.reverse) :
    l1.reverse <+: l2 := by
  rcases h with ⟨p, hp⟩
  refine ⟨p.reverse, ?_⟩
  have h2 := congrArg List.reverse hp
  simp at h2
  exact h2

/-- Stripping yields an infix of the original list. -/
theorem pyStrip_substr (s : PyStr) : pyStrip s <:+: s := by
  unfold pyStrip
  have h1 : s.dropWhile isPyWs <:+ s := List.dropWhile_suffix _
  have h2 : (s.dropWhile isPyWs).reverse.dropWhile isPyWs <:+
      (s.dropWhile isPyWs).reverse := List.dropWhile_suffix _
  have h3 : ((s.dropWhile isPyWs).reverse.dropWhile isPyWs).reverse <+:
      s.dropWhile isPyWs := reverse_prefix_of_suffix h2
  exact h3.isInfix.trans h1.isInfix

/-- Stripping never lengthens a list. -/
theorem pyStrip_length_le (s : PyStr) : (pyStrip s).length ≤ s.length :=
  (pyStrip_substr s).length_le

/-- A stripped list never starts with whitespace. -/
theorem pyStrip_head (s : PyStr) (a : Char) (t : PyStr) (h : pyStrip s = a :: t) :
    isPyWs a = false := by
  unfold pyStrip at h
  have hpre : ((s.dropWhile isPyWs).reverse.dropWhile isPyWs).reverse <+:
      s.dropWhile isPyWs := reverse_prefix_of_suffix (List.dropWhile_suffix _)
  rcases prefix_head_eq hpre a t h with ⟨t2, h2⟩
  exact dropWhile_head_false isPyWs s a t2 h2

/-- A stripped list never ends with whitespace. -/
theorem pyStrip_last (s : PyStr) (a : Char) (t : PyStr) (h : pyStrip s = t ++ [a]) :
    isPyWs a = false := by
  unfold pyStrip at h
  have h2 : (s.dropWhile isPyWs).reverse.dropWhile isPyWs = a :: t.reverse := by
    have h3 := congrArg List.reverse h
    rw [List.reverse_reverse] at h3
    rw [h3]
    simp
  exact dropWhile_head_false isPyWs _ a t.reverse h2

/-- Python sep.join with the empty separator is plain concatenation. -/
theorem joinSep_nil (l : List PyStr) : joinSep [] l = l.flatten := by
  induction l with
  | nil => rfl
  | cons d rest ih =>
    cases rest with
    | nil => simp [joinSep]
    | cons d2 rest2 =>
      have h : joinSep ([] : PyStr) (d :: d2 :: rest2) =
          d ++ [] ++ joinSep [] (d2 :: rest2) := rfl
      rw [h, ih]
      simp

/-- Membership in a joinDocs result forces the stripped nonempty shape. -/
theorem joinDocs_mem (sep : PyStr) (docs : List PyStr) (c : PyStr)
    (hc : c ∈ (joinDocs sep docs).toList) :
    c = pyStrip (joinSep sep docs) ∧ pyStrip (joinSep sep docs) ≠ [] := by
  unfold joinDocs at hc
  by_cases ht : pyStrip (joinSep sep docs) = []
  · rw [if_pos ht] at hc
    exact absurd hc (by simp)
  · rw [if_neg ht] at hc
    simp at hc
    exact ⟨hc, ht⟩

/-- Specification of the shrink loop: the kept buffer is a suffix of the
original, the tracked total stays the sum of the kept piece lengths, and
the loop only stops with an empty buffer or with room for the next piece
(or a nonpositive total). -/
theorem shrinkLoop_spec (cs co : Nat) (dLen : Int) :
    ∀ (cur : List PyStr) (total : Int),
      (shrinkLoop cs co 0 dLen cur total).1 <:+ cur ∧
      (total = ((cur.map List.length).sum : Int) →
        (shrinkLoop cs co 0 dLen cur total).2 =
          (((shrinkLoop cs co 0 dLen cur total).1.map List.length).sum : Int)) ∧
      ((shrinkLoop cs co 0 dLen cur total).1 = [] ∨
        (shrinkLoop cs co 0 dLen cur total).2 + dLen ≤ (cs : Int) ∨
        (shrinkLoop cs co 0 dLen cur total).2 ≤ 0) := by
  intro cur
  induction cur with
  | nil =>
    intro total
    exact ⟨List.suffix_refl _, fun h => h, Or.inl rfl⟩
  | cons c rest ih =>
    intro total
    by_cases hcond : total > (co : Int) ∨ (total + dLen + 0 > (cs : Int) ∧ total > 0)
    · have hstep : shrinkLoop cs co 0 dLen (c :: rest) total =
          shrinkLoop cs co 0 dLen rest
            (total - ((c.length : Int) + (if rest = [] then 0 else 0))) := by
        simp only [shrinkLoop]
        rw [if_pos hcond]
      rw [hstep]
      rcases ih (total - ((c.length : Int) + (if rest = [] then 0 else 0))) with ⟨h1, h2, h3⟩
      refine ⟨h1.trans (List.suffix_cons c rest), ?_, h3⟩
      intro htot
      apply h2
      rw [htot]
      simp
    · have hstep : shrinkLoop cs co 0 dLen (c :: rest) total = (c :: rest, total) := by
        simp only [shrinkLoop]
        rw [if_neg hcond]
      rw [hstep]
      refine ⟨List.suffix_refl _, fun h => h, Or.inr ?_⟩
      omega

/-- Stepping the merge loop with an empty buffer just appends the piece. -/
theorem mergeAux_step_nil (cs co : Nat) (sep d : PyStr) (ds : List PyStr) (total : Int) :
    mergeAux cs co sep (d :: ds) [] total =
      mergeAux cs co sep ds [d] (total + (d.length : Int)) := by
  simp only [mergeAux]
  simp

/-- Stepping the merge loop when the next piece overflows a nonempty
buffer: flush the joined buffer, shrink, then append the piece. -/
theorem mergeAux_step_flush (cs co : Nat) (sep d c0 : PyStr) (curRest ds : List PyStr)
    (total : Int)
    (h : total + (d.length : Int) + (sep.length : Int) > (cs : Int)) :
    mergeAux cs co sep (d :: ds) (c0 :: curRest) total =
      (joinDocs sep (c0 :: curRest)).toList ++
        mergeAux cs co sep ds
          ((shrinkLoop cs co (sep.length : Int) (d.length : Int) (c0 :: curRest) total).1
            ++ [d])
          ((shrinkLoop cs co (sep.length : Int) (d.length : Int) (c0 :: curRest) total).2 +
            (d.length : Int) +
            (if (shrinkLoop cs co (sep.length : Int) (d.length : Int)
                  (c0 :: curRest) total).1 = []
             then 0 else (sep.length : Int))) := by
  simp only [mergeAux]
  rw [if_neg (List.cons_ne_nil c0 curRest), if_pos h]

/-- Stepping the merge loop when the next piece fits: append it. -/
theorem mergeAux_step_app (cs co : Nat) (sep d : PyStr) (cur ds : List PyStr)
    (total : Int) (hcur : cur ≠ [])
    (h : ¬ total + (d.length : Int) + (sep.length : Int) > (cs : Int)) :
    mergeAux cs co sep (d :: ds) cur total =
      mergeAux cs co sep ds (cur ++ [d])
        (total + (d.length : Int) + (sep.length : Int)) := by
  simp only [mergeAux]
  rw [if_neg hcur, if_neg h]

/-- Every chunk the merge loop emits is a stripped nonempty string. -/
theorem mergeAux_shape (cs co : Nat) (sep : PyStr) :
    ∀ (ds cur : List PyStr) (total : Int), ∀ c ∈ mergeAux cs co sep ds cur total,
      ∃ w, c = pyStrip w ∧ pyStrip w ≠ [] := by
  intro ds
  induction ds with
  | nil =>
    intro cur total c hc
    simp only [mergeAux] at hc
    rcases joinDocs_mem sep cur c hc with ⟨h1, h2⟩
    exact ⟨joinSep sep cur, h1, h2⟩
  | cons d ds ih =>
    intro cur total c hc
    cases cur with
    | nil =>
      rw [mergeAux_step_nil] at hc
      exact ih _ _ c hc
    | cons c0 curRest =>
      by_cases h : total + (d.length : Int) + (sep.length : Int) > (cs : Int)
      · rw [mergeAux_step_flush cs co sep d c0 curRest ds total h] at hc
        rw [List.mem_append] at hc
        rcases hc with hc | hc
        · rcases joinDocs_mem sep (c0 :: curRest) c hc with ⟨h1, h2⟩
          exact ⟨joinSep sep (c0 :: curRest), h1, h2⟩
        · exact ih _ _ c hc
      · rw [mergeAux_step_app cs co sep d (c0 :: curRest) ds total
          (List.cons_ne_nil c0 curRest) h] at hc
        exact ih _ _ c hc

/-- With the empty merge separator (keep_separator=True), every emitted
chunk respects the chunk size, provided every buffered piece is good. -/
theorem mergeAux_length (cs co : Nat) :
    ∀ (ds cur : List PyStr) (total : Int),
      (∀ d ∈ ds, d.length < cs) →
      (∀ g ∈ cur, g.length < cs) →
      total = ((cur.map List.length).sum : Int) →
      total ≤ (cs : Int) →
      ∀ c ∈ mergeAux cs co [] ds cur total, c.length ≤ cs := by
  intro ds
  induction ds with
  | nil =>
    intro cur total _ _ htot hle c hc
    simp only [mergeAux] at hc
    rcases joinDocs_mem [] cur c hc with ⟨h1, _⟩
    have hlen : c.length ≤ (joinSep ([] : PyStr) cur).length := by
      rw [h1]
      exact pyStrip_length_le _
    rw [joinSep_nil, List.length_flatten] at hlen
    rw [htot] at hle
    omega
  | cons d ds ih =>
    intro cur total hds hcur htot hle c hc
    have hd : d.length < cs := hds d (List.mem_cons_self d ds)
    have hds2 : ∀ x ∈ ds, x.length < cs := fun x hx => hds x (List.mem_cons_of_mem d hx)
    cases cur with
    | nil =>
      rw [mergeAux_step_nil] at hc
      simp only [List.map_nil, List.sum_nil, Nat.cast_zero] at htot
      refine ih [d] (total + (d.length : Int)) hds2 ?_ ?_ ?_ c hc
      · intro g hg
        rw [List.mem_singleton] at hg
        rw [hg]
        exact hd
      · simp
        omega
      · omega
    | cons c0 curRest =>
      by_cases h : total + (d.length : Int) + (([] : PyStr).length : Int) > (cs : Int)
      · rw [mergeAux_step_flush cs co [] d c0 curRest ds total h] at hc
        simp only [List.length_nil, Nat.cast_zero, add_zero, ite_self] at hc
        rw [List.mem_append] at hc
        rcases hc with hc | hc
        · rcases joinDocs_mem [] (c0 :: curRest) c hc with ⟨h1, _⟩
          have hlen : c.length ≤ (joinSep ([] : PyStr) (c0 :: curRest)).length := by
            rw [h1]
            exact pyStrip_length_le _
          rw [joinSep_nil, List.length_flatten] at hlen
          rw [htot] at hle
          omega
        · rcases shrinkLoop_spec cs co (d.length : Int) (c0 :: curRest) total with
            ⟨hsuf, hinv, hpost⟩
          have hinv2 := hinv htot
          refine ih _ _ hds2 ?_ ?_ ?_ c hc
          · intro g hg
            rw [List.mem_append] at hg
            rcases hg with hg | hg
            · exact hcur g (hsuf.sublist.subset hg)
            · rw [List.mem_singleton] at hg
              rw [hg]
              exact hd
          · rw [hinv2]
            simp
          · have hsum : (0 : Int) ≤
                ((((shrinkLoop cs co 0 (d.length : Int) (c0 :: curRest) total).1.map
                  List.length).sum : Nat) : Int) := by positivity
            rcases hpost with hpost | hpost | hpost
            · rw [hpost] at hinv2
              simp at hinv2
              omega
            · omega
            · omega
      · rw [mergeAux_step_app cs co [] d (c0 :: curRest) ds total
          (List.cons_ne_nil c0 curRest) h] at hc
        simp only [List.length_nil, Nat.cast_zero, add_zero] at hc h
        refine ih _ _ hds2 ?_ ?_ ?_ c hc
        · intro g hg
          rw [List.mem_append] at hg
          rcases hg with hg | hg
          · exact hcur g hg
          · rw [List.mem_singleton] at hg
            rw [hg]
            exact hd
        · rw [htot]
          simp
          omega
        · omega

/-- A suffix of the piece list flattens to a suffix of the flattening. -/
theorem suffix_flatten {l1 l2 : List PyStr} (h : l1 <:+ l2) :
    l1.flatten <:+ l2.flatten := by
  rcases h with ⟨p, rfl⟩
  exact ⟨p.flatten, by simp⟩

/-- Every chunk the merge loop emits with the empty separator is a
contiguous substring of the buffered and pending pieces. -/
theorem mergeAux_substr (cs co : Nat) :
    ∀ (ds cur : List PyStr) (total : Int), ∀ c ∈ mergeAux cs co [] ds cur total,
      c <:+: cur.flatten ++ ds.flatten := by
  intro ds
  induction ds with
  | nil =>
    intro cur total c hc
    simp only [mergeAux] at hc
    rcases joinDocs_mem [] cur c hc with ⟨h1, _⟩
    have h2 := pyStrip_substr (joinSep ([] : PyStr) cur)
    rw [joinSep_nil] at h2
    rw [h1, joinSep_nil]
    simpa using h2
  | cons d ds ih =>
    intro cur total c hc
    cases cur with
    | nil =>
      rw [mergeAux_step_nil] at hc
      have h2 := ih [d] (total + (d.length : Int)) c hc
      simpa using h2
    | cons c0 curRest =>
      by_cases h : total + (d.length : Int) + (([] : PyStr).length : Int) > (cs : Int)
      · rw [mergeAux_step_flush cs co [] d c0 curRest ds total h] at hc
        simp only [List.length_nil, Nat.cast_zero, add_zero, ite_self] at hc
        rw [List.mem_append] at hc
        rcases hc with hc | hc
        · rcases joinDocs_mem [] (c0 :: curRest) c hc with ⟨h1, _⟩
          have h2 := pyStrip_substr (joinSep ([] : PyStr) (c0 :: curRest))
          rw [joinSep_nil] at h2
          rw [h1, joinSep_nil]
          apply h2.trans
          exact ⟨[], (d :: ds).flatten, by simp⟩
        · have h2 := ih _ _ c hc
          rcases shrinkLoop_spec cs co (d.length : Int) (c0 :: curRest) total with
            ⟨hsuf, _, _⟩
          rcases suffix_flatten hsuf with ⟨p, hp⟩
          apply h2.trans
          refine ⟨p, [], ?_⟩
          simp only [List.flatten_append, List.append_nil, List.flatten_cons]
          rw [← List.append_assoc, ← List.append_assoc, hp]
          simp
      · rw [mergeAux_step_app cs co [] d (c0 :: curRest) ds total
          (List.cons_ne_nil c0 curRest) h] at hc
        have h2 := ih _ _ c hc
        have heq : ((c0 :: curRest) ++ [d]).flatten ++ ds.flatten =
            (c0 :: curRest).flatten ++ (d :: ds).flatten := by
          simp
        rw [heq] at h2
        exact h2

/-- Membership in the flush of the good buffer is membership in the merge
of that buffer. -/
theorem goodFlush_mem {cs co : Nat} {good : List PyStr} {c : PyStr}
    (hc : c ∈ (if good = [] then ([] : List PyStr) else mergeSplits cs co [] good)) :
    c ∈ mergeAux cs co [] good [] 0 := by
  by_cases hg : good = []
  · rw [if_pos hg] at hc
    exact absurd hc (List.not_mem_nil c)
  · rw [if_neg hg] at hc
    exact hc

/-- Every chunk the good/bad loop emits is a stripped nonempty string,
provided oversized pieces are handled by a handler with that property. -/
theorem processSplits_shape (cs co : Nat) (handler : Option (PyStr → List PyStr)) :
    ∀ (splits good : List PyStr),
      (∀ s ∈ splits, s.length < cs ∨
        ∀ c ∈ (match handler with | none => [s] | some f => f s),
          ∃ w, c = pyStrip w ∧ pyStrip w ≠ []) →
      ∀ c ∈ processSplits cs co handler splits good,
        ∃ w, c = pyStrip w ∧ pyStrip w ≠ [] := by
  intro splits
  induction splits with
  | nil =>
    intro good _ c hc
    simp only [processSplits] at hc
    exact mergeAux_shape cs co [] good [] 0 c (goodFlush_mem hc)
  | cons s ss ih =>
    intro good hsp c hc
    have hss : ∀ x ∈ ss, x.length < cs ∨
        ∀ c ∈ (match handler with | none => [x] | some f => f x),
          ∃ w, c = pyStrip w ∧ pyStrip w ≠ [] :=
      fun x hx => hsp x (List.mem_cons_of_mem s hx)
    simp only [processSplits] at hc
    by_cases hs : s.length < cs
    · rw [if_pos hs] at hc
      exact ih (good ++ [s]) hss c hc
    · rw [if_neg hs] at hc
      rw [List.mem_append, List.mem_append] at hc
      rcases hc with (hc | hc) | hc
      · exact mergeAux_shape cs co [] good [] 0 c (goodFlush_mem hc)
      · rcases hsp s (List.mem_cons_self s ss) with hgood | hh
        · exact absurd hgood hs
        · exact hh c hc
      · exact ih [] hss c hc

/-- Every chunk the good/bad loop emits respects the chunk size, provided
oversized pieces are handled by a handler with that property. -/
theorem processSplits_length (cs co : Nat) (handler : Option (PyStr → List PyStr)) :
    ∀ (splits good : List PyStr),
      (∀ s ∈ splits, s.length < cs ∨
        ∀ c : PyStr, c ∈ (match handler with | none => [s] | some f => f s) →
          c.length ≤ cs) →
      (∀ g ∈ good, g.length < cs) →
      ∀ c ∈ processSplits cs co handler splits good, c.length ≤ cs := by
  intro splits
  induction splits with
  | nil =>
    intro good _ hgood c hc
    simp only [processSplits] at hc
    exact mergeAux_length cs co good [] 0 hgood (by simp) (by simp) (by positivity)
      c (goodFlush_mem hc)
  | cons s ss ih =>
    intro good hsp hgood c hc
    have hss : ∀ x ∈ ss, x.length < cs ∨
        ∀ c : PyStr, c ∈ (match handler with | none => [x] | some f => f x) →
          c.length ≤ cs :=
      fun x hx => hsp x (List.mem_cons_of_mem s hx)
    simp only [processSplits] at hc
    by_cases hs : s.length < cs
    · rw [if_pos hs] at hc
      refine ih (good ++ [s]) hss ?_ c hc
      intro g hg
      rw [List.mem_append] at hg
      rcases hg with hg | hg
      · exact hgood g hg
      · rw [List.mem_singleton] at hg
        rw [hg]
        exact hs
    · rw [if_neg hs] at hc
      rw [List.mem_append, List.mem_append] at hc
      rcases hc with (hc | hc) | hc
      · exact mergeAux_length cs co good [] 0 hgood (by simp) (by simp) (by positivity)
          c (goodFlush_mem hc)
      · rcases hsp s (List.mem_cons_self s ss) with hgood2 | hh
        · exact absurd hgood2 hs
        · exact hh c hc
      · exact ih [] hss (by simp) c hc

/-- Every chunk the good/bad loop emits is a contiguous substring of the
buffered and pending pieces, provided the handler only produces
substrings of its piece. -/
theorem processSplits_substr (cs co : Nat) (handler : Option (PyStr → List PyStr)) :
    ∀ (splits good : List PyStr),
      (∀ s ∈ splits,
        ∀ c ∈ (match handler with | none => [s] | some f => f s), c <:+: s) →
      ∀ c ∈ processSplits cs co handler splits good,
        c <:+: good.flatten ++ splits.flatten := by
  intro splits
  induction splits with
  | nil =>
    intro good _ c hc
    simp only [processSplits] at hc
    have h2 := mergeAux_substr cs co good [] 0 c (goodFlush_mem hc)
    simpa using h2
  | cons s ss ih =>
    intro good hsp c hc
    have hss : ∀ x ∈ ss,
        ∀ c ∈ (match handler with | none => [x] | some f => f x), c <:+: x :=
      fun x hx => hsp x (List.mem_cons_of_mem s hx)
    simp only [processSplits] at hc
    by_cases hs : s.length < cs
    · rw [if_pos hs] at hc
      have h2 := ih (good ++ [s]) hss c hc
      have heq : (good ++ [s]).flatten ++ ss.flatten =
          good.flatten ++ (s :: ss).flatten := by
        simp
      rw [heq] at h2
      exact h2
    · rw [if_neg hs] at hc
      rw [List.mem_append, List.mem_append] at hc
      rcases hc with (hc | hc) | hc
      · have h2 := mergeAux_substr cs co good [] 0 c (goodFlush_mem hc)
        simp only [List.flatten_nil, List.nil_append, List.append_nil] at h2
        apply h2.trans
        exact ⟨[], (s :: ss).flatten, by simp⟩
      · have h2 := hsp s (List.mem_cons_self s ss) c hc
        apply h2.trans
        exact ⟨good.flatten, ss.flatten, by simp⟩
      · have h2 := ih [] hss c hc
        simp only [List.flatten_nil, List.nil_append] at h2
        apply h2.trans
        exact ⟨good.flatten ++ s, [], by simp⟩

/-- With the character-level fallback present among the separators, every
chunk of the recursive splitter respects the chunk size. -/
theorem splitText_length (cs co : Nat) (hcs : 1 ≤ cs) :
    ∀ (seps : List PyStr), ([] : PyStr) ∈ seps →
      ∀ (text : PyStr), ∀ c ∈ splitText cs co seps text, c.length ≤ cs := by
  intro seps
  induction seps with
  | nil =>
    intro h
    exact absurd h (List.not_mem_nil _)
  | cons sep rest ih =>
    intro hmem text c hc
    by_cases hsep : sep = []
    · subst hsep
      rw [show splitText cs co ([] :: rest) text =
          processSplits cs co none (charSplits text) [] from by simp [splitText]] at hc
      have hh : ∀ s ∈ charSplits text, s.length < cs ∨
          ∀ c2 ∈ [s], c2.length ≤ cs := by
        intro s hsm
        right
        intro c2 hc2
        rw [List.mem_singleton] at hc2
        rcases List.mem_map.mp hsm with ⟨a, _, ha⟩
        rw [hc2, ← ha]
        simpa using hcs
      exact processSplits_length cs co none (charSplits text) [] hh (by simp) c hc
    · have hmem2 : ([] : PyStr) ∈ rest := by
        rcases List.mem_cons.mp hmem with h | h
        · exact absurd h.symm hsep
        · exact h
      by_cases hcont : containsL sep text = true
      · have hrne : rest ≠ [] := by
          intro h
          rw [h] at hmem2
          exact absurd hmem2 (List.not_mem_nil _)
        rw [show splitText cs co (sep :: rest) text =
            processSplits cs co (some (fun s => splitText cs co rest s))
              (splitKeep sep text) [] from by
          simp [splitText, hsep, hcont, hrne]] at hc
        have hh : ∀ s ∈ splitKeep sep text, s.length < cs ∨
            ∀ c2 ∈ splitText cs co rest s, c2.length ≤ cs := by
          intro s _
          right
          intro c2 hc2
          exact ih hmem2 s c2 hc2
        exact processSplits_length cs co (some (fun s => splitText cs co rest s))
          (splitKeep sep text) [] hh (by simp) c hc
      · rw [show splitText cs co (sep :: rest) text = splitText cs co rest text from by
          simp [splitText, hsep, hcont]] at hc
        exact ih hmem2 text c hc

/-- With the character-level fallback present and a chunk size of at
least two, every chunk of the recursive splitter is a stripped nonempty
string. -/
theorem splitText_shape (cs co : Nat) (hcs : 2 ≤ cs) :
    ∀ (seps : List PyStr), ([] : PyStr) ∈ seps →
      ∀ (text : PyStr), ∀ c ∈ splitText cs co seps text,
        ∃ w, c = pyStrip w ∧ pyStrip w ≠ [] := by
  intro seps
  induction seps with
  | nil =>
    intro h
    exact absurd h (List.not_mem_nil _)
  | cons sep rest ih =>
    intro hmem text c hc
    by_cases hsep : sep = []
    · subst hsep
      rw [show splitText cs co ([] :: rest) text =
          processSplits cs co none (charSplits text) [] from by simp [splitText]] at hc
      have hh : ∀ s ∈ charSplits text, s.length < cs ∨
          ∀ c2 ∈ [s], ∃ w, c2 = pyStrip w ∧ pyStrip w ≠ [] := by
        intro s hsm
        left
        rcases List.mem_map.mp hsm with ⟨a, _, ha⟩
        rw [← ha]
        simp
        omega
      exact processSplits_shape cs co none (charSplits text) [] hh c hc
    · have hmem2 : ([] : PyStr) ∈ rest := by
        rcases List.mem_cons.mp hmem with h | h
        · exact absurd h.symm hsep
        · exact h
      by_cases hcont : containsL sep text = true
      · have hrne : rest ≠ [] := by
          intro h
          rw [h] at hmem2
          exact absurd hmem2 (List.not_mem_nil _)
        rw [show splitText cs co (sep :: rest) text =
            processSplits cs co (some (fun s => splitText cs co rest s))
              (splitKeep sep text) [] from by
          simp [splitText, hsep, hcont, hrne]] at hc
        have hh : ∀ s ∈ splitKeep sep text, s.length < cs ∨
            ∀ c2 ∈ splitText cs co rest s, ∃ w, c2 = pyStrip w ∧ pyStrip w ≠ [] := by
          intro s _
          right
          intro c2 hc2
          exact ih hmem2 s c2 hc2
        exact processSplits_shape cs co (some (fun s => splitText cs co rest s))
          (splitKeep sep text) [] hh c hc
      · rw [show splitText cs co (sep :: rest) text = splitText cs co rest text from by
          simp [splitText, hsep, hcont]] at hc
        exact ih hmem2 text c hc

/-- Every chunk of the recursive splitter is a contiguous substring of
the input text. -/
theorem splitText_substr (cs co : Nat) :
    ∀ (seps : List PyStr) (text : PyStr), ∀ c ∈ splitText cs co seps text,
      c <:+: text := by
  intro seps
  induction seps with
  | nil =>
    intro text c hc
    simp only [splitText, List.mem_singleton] at hc
    rw [hc]
  | cons sep rest ih =>
    intro text c hc
    by_cases hsep : sep = []
    · subst hsep
      rw [show splitText cs co ([] :: rest) text =
          processSplits cs co none (charSplits text) [] from by simp [splitText]] at hc
      have hh : ∀ s ∈ charSplits text, ∀ c2 ∈ [s], c2 <:+: s := by
        intro s _ c2 hc2
        rw [List.mem_singleton] at hc2
        rw [hc2]
      have h2 := processSplits_substr cs co none (charSplits text) [] hh c hc
      rw [show (([] : List PyStr).flatten ++ (charSplits text).flatten : PyStr) =
          text from by rw [charSplits_flatten]; rfl] at h2
      exact h2
    · by_cases hcont : containsL sep text = true
      · by_cases hrne : rest = []
        · rw [show splitText cs co (sep :: rest) text =
              processSplits cs co none (splitKeep sep text) [] from by
            simp [splitText, hsep, hcont, hrne]] at hc
          have hh : ∀ s ∈ splitKeep sep text, ∀ c2 ∈ [s], c2 <:+: s := by
            intro s _ c2 hc2
            rw [List.mem_singleton] at hc2
            rw [hc2]
          have h2 := processSplits_substr cs co none (splitKeep sep text) [] hh c hc
          rw [show (([] : List PyStr).flatten ++ (splitKeep sep text).flatten : PyStr) =
              text from by rw [splitKeep_flatten]; rfl] at h2
          exact h2
        · rw [show splitText cs co (sep :: rest) text =
              processSplits cs co (some (fun s => splitText cs co rest s))
                (splitKeep sep text) [] from by
            simp [splitText, hsep, hcont, hrne]] at hc
          have hh : ∀ s ∈ splitKeep sep text,
              ∀ c2 ∈ splitText cs co rest s, c2 <:+: s := by
            intro s _ c2 hc2
            exact ih s c2 hc2
          have h2 := processSplits_substr cs co (some (fun s => splitText cs co rest s))
              (splitKeep sep text) [] hh c hc
          rw [show (([] : List PyStr).flatten ++ (splitKeep sep text).flatten : PyStr) =
              text from by rw [splitKeep_flatten]; rfl] at h2
          exact h2
      · rw [show splitText cs co (sep :: rest) text = splitText cs co rest text from by
          simp [splitText, hsep, hcont]] at hc
        exact ih text c hc

/-! Claim theorems. -/

/-- C6: for every text and every max size at least the text length,
chunk_text returns exactly one chunk and that chunk is the text itself. -/
theorem C6_short_text_single_chunk (text : String) (chunkSize chunkOverlap : Option Nat)
    (h : text.length ≤ chunkSize.getD CHUNK_SIZE) :
    chunk_text text chunkSize chunkOverlap = [text] := by
  unfold chunk_text
  simp [h]

/-- Witness for C6 at a concrete input. -/
theorem C6_short_text_single_chunk_witness :
    ("abc" : String).length ≤ (some 10 : Option Nat).getD CHUNK_SIZE ∧
    chunk_text "abc" (some 10) (some 2) = ["abc"] :=
  ⟨by decide, C6_short_text_single_chunk "abc" (some 10) (some 2) (by decide)⟩

/-- C1: with a valid model, summarize_text takes the map-reduce path
exactly when the text exceeds 30000 characters; otherwise it sends exactly
one prompt, the single-shot summary prompt embedding the full text. -/
theorem C1_path_selection (cfg : Config) (llm : LLM) (modelName : Option String)
    (text : String) (hok : get_llm cfg modelName = Except.ok ()) :
    (text.length > 30000 →
      summarize_text cfg llm modelName text = summarize_long_text cfg llm modelName text) ∧
    (text.length ≤ 30000 →
      (summarize_text cfg llm modelName text).2 = [Prompt.summary text]) := by
  constructor
  · intro hgt
    unfold summarize_text
    rw [hok]
    simp [hgt]
  · intro hle
    have hnot : ¬ text.length > 30000 := Nat.not_lt.mpr hle
    unfold summarize_text
    rw [hok]
    cases hl : llm (Prompt.summary text) <;> simp [hnot, hl]

set_option maxRecDepth 4000 in
/-- Witness for C1: a 500-character input takes the single-shot path with
one model call. -/
theorem C1_path_selection_witness :
    get_llm ⟨"key", ""⟩ none = Except.ok () ∧
    (String.mk (List.replicate 500 'a')).length ≤ 30000 ∧
    (summarize_text ⟨"key", ""⟩ (fun _ => Except.ok "S") none
        (String.mk (List.replicate 500 'a'))).2
      = [Prompt.summary (String.mk (List.replicate 500 'a'))] :=
  ⟨rfl, by decide,
    (C1_path_selection ⟨"key", ""⟩ (fun _ => Except.ok "S") none
      (String.mk (List.replicate 500 'a')) rfl).2 (by decide)⟩

/-- C2: with a valid model and a model that always answers,
summarize_long_text chunks at size 8000 overlap 500, sends one chunk
prompt per chunk in chunk order, then exactly one combine prompt over the
chunk summaries joined by the visible separator, returning the combined
answer; the trace length is the chunk count plus one. -/
theorem C2_mapreduce_trace (cfg : Config) (f : Prompt → String) (modelName : Option String)
    (text : String) (hok : get_llm cfg modelName = Except.ok ()) :
    (summarize_long_text cfg (fun p => Except.ok (f p)) modelName text =
      (({ success := true,
          summary := f (Prompt.combine (String.intercalate "\n\n---\n\n"
            ((chunk_text text (some 8000) (some 500)).map
              (fun c => f (Prompt.chunkSummary c))))),
          error := none,
          chunksProcessed := some (chunk_text text (some 8000) (some 500)).length },
        (chunk_text text (some 8000) (some 500)).map Prompt.chunkSummary ++
          [Prompt.combine (String.intercalate "\n\n---\n\n"
            ((chunk_text text (some 8000) (some 500)).map
              (fun c => f (Prompt.chunkSummary c))))]))) ∧
    (summarize_long_text cfg (fun p => Except.ok (f p)) modelName text).2.length =
      (chunk_text text (some 8000) (some 500)).length + 1 := by
  have h1 : summarize_long_text cfg (fun p => Except.ok (f p)) modelName text =
      (({ success := true,
          summary := f (Prompt.combine (String.intercalate "\n\n---\n\n"
            ((chunk_text text (some 8000) (some 500)).map
              (fun c => f (Prompt.chunkSummary c))))),
          error := none,
          chunksProcessed := some (chunk_text text (some 8000) (some 500)).length },
        (chunk_text text (some 8000) (some 500)).map Prompt.chunkSummary ++
          [Prompt.combine (String.intercalate "\n\n---\n\n"
            ((chunk_text text (some 8000) (some 500)).map
              (fun c => f (Prompt.chunkSummary c))))])) := by
    unfold summarize_long_text
    rw [hok]
    simp only [chunksAux_map]
  refine ⟨h1, ?_⟩
  rw [h1]
  simp

/-- Witness for C2 at a one-chunk input: two model calls in total. -/
theorem C2_mapreduce_trace_witness :
    get_llm ⟨"key", ""⟩ none = Except.ok () ∧
    (summarize_long_text ⟨"key", ""⟩ (fun p => Except.ok ((fun _ => "S") p)) none "hi").2.length =
      (chunk_text "hi" (some 8000) (some 500)).length + 1 :=
  ⟨rfl, (C2_mapreduce_trace ⟨"key", ""⟩ (fun _ => "S") none "hi" rfl).2⟩

/-- C3: with a valid model, if any prompt actually sent by summarize_text
or summarize_long_text raised, the function returns the failure outcome:
unsuccessful, empty summary (all chunk summaries discarded), and a
nonempty human-readable error message. -/
theorem C3_failure_discards (cfg : Config) (llm : LLM) (modelName : Option String)
    (hok : get_llm cfg modelName = Except.ok ()) :
    (∀ text p e, p ∈ (summarize_text cfg llm modelName text).2 →
      llm p = Except.error e →
      (summarize_text cfg llm modelName text).1.success = false ∧
      (summarize_text cfg llm modelName text).1.summary = "" ∧
      ∃ m, (summarize_text cfg llm modelName text).1.error = some m ∧ m ≠ "") ∧
    (∀ text p e, p ∈ (summarize_long_text cfg llm modelName text).2 →
      llm p = Except.error e →
      (summarize_long_text cfg llm modelName text).1.success = false ∧
      (summarize_long_text cfg llm modelName text).1.summary = "" ∧
      ∃ m, (summarize_long_text cfg llm modelName text).1.error = some m ∧ m ≠ "") := by
  constructor
  · intro text p e hp he
    by_cases hlen : text.length > 30000
    · have hdeleg : summarize_text cfg llm modelName text =
          summarize_long_text cfg llm modelName text := by
        unfold summarize_text
        rw [hok]
        simp [hlen]
      rw [hdeleg] at hp ⊢
      exact long_fail_of_error cfg llm modelName text hok p e hp he
    · unfold summarize_text at hp ⊢
      rw [hok] at hp ⊢
      rw [if_neg hlen] at hp ⊢
      cases hl : llm (Prompt.summary text) with
      | ok r =>
        exfalso
        rw [hl] at hp
        simp at hp
        rw [hp] at he
        rw [hl] at he
        exact Except.noConfusion he
      | error e2 =>
        exact ⟨rfl, rfl, "Error generating summary: " ++ e2, rfl,
          append_left_ne_empty _ _ (by decide)⟩
  · intro text p e hp he
    exact long_fail_of_error cfg llm modelName text hok p e hp he

/-- Witness for C3: a model that always raises makes summarize_text fail
with an empty summary and a nonempty message. -/
theorem C3_failure_discards_witness :
    get_llm ⟨"key", ""⟩ none = Except.ok () ∧
    Prompt.summary "x" ∈
      (summarize_text ⟨"key", ""⟩ (fun _ => Except.error "boom") none "x").2 ∧
    ((summarize_text ⟨"key", ""⟩ (fun _ => Except.error "boom") none "x").1.success = false ∧
      (summarize_text ⟨"key", ""⟩ (fun _ => Except.error "boom") none "x").1.summary = "" ∧
      ∃ m, (summarize_text ⟨"key", ""⟩ (fun _ => Except.error "boom") none "x").1.error =
        some m ∧ m ≠ "") :=
  ⟨rfl, by decide,
    (C3_failure_discards ⟨"key", ""⟩ (fun _ => Except.error "boom") none rfl).1
      "x" (Prompt.summary "x") "boom" (by decide) rfl⟩

/-- C9: when the model answer decodes to the empty array, parsing succeeds
with an empty list, yet generate_quiz reports the parse-failure outcome,
because success is decided by truthiness of the parsed value. -/
theorem C9_empty_array_reported_as_failure (cfg : Config) (llm : LLM)
    (modelName : Option String) (summary : String) (nq : Option Nat) (resp : String)
    (hok : get_llm cfg modelName = Except.ok ())
    (hresp : llm (Prompt.quiz summary (nq.getD DEFAULT_NUM_QUESTIONS)) = Except.ok resp)
    (hparse : parse_quiz_response resp = some (Json.arr [])) :
    generate_quiz cfg llm modelName summary nq =
      ({ success := false, quiz := Json.arr [],
         error := some "Failed to parse quiz response. Please try again." },
       [Prompt.quiz summary (nq.getD DEFAULT_NUM_QUESTIONS)]) := by
  simp [generate_quiz, hok, hresp, hparse, pyTruthy]

/-- Witness for C9 at the literal empty-array response. -/
theorem C9_empty_array_reported_as_failure_witness :
    parse_quiz_response "[]" = some (Json.arr []) ∧
    generate_quiz ⟨"key", ""⟩ (fun _ => Except.ok "[]") none "sum" none =
      ({ success := false, quiz := Json.arr [],
         error := some "Failed to parse quiz response. Please try again." },
       [Prompt.quiz "sum" 5]) :=
  ⟨rfl, C9_empty_array_reported_as_failure ⟨"key", ""⟩ (fun _ => Except.ok "[]")
    none "sum" none "[]" rfl rfl rfl⟩

/-- C10: a valid non-array JSON response (here a nonempty object) is
returned by parse_quiz_response unchecked, and generate_quiz reports
success with a quiz value that is not an array. -/
theorem C10_nonarray_success :
    parse_quiz_response "\x7b\"a\": 1\x7d" = some (Json.obj [("a", Json.num 1)]) ∧
    (generate_quiz ⟨"key", ""⟩ (fun _ => Except.ok "\x7b\"a\": 1\x7d") none "sum" none).1.success
      = true ∧
    (generate_quiz ⟨"key", ""⟩ (fun _ => Except.ok "\x7b\"a\": 1\x7d") none "sum" none).1.quiz
      = Json.obj [("a", Json.num 1)] ∧
    ∀ l, Json.obj [("a", Json.num 1)] ≠ Json.arr l := by
  refine ⟨rfl, rfl, rfl, ?_⟩
  intro l h
  exact Json.noConfusion h

/-- C4 counterexample: a response with no bracketed array at all can still
make generate_quiz succeed, because the whole response may itself be valid
JSON (here the number 5). -/
theorem C4_counterexample :
    (∀ c ∈ ("5" : String).data, c ≠ '[') ∧
    (generate_quiz ⟨"key", ""⟩ (fun _ => Except.ok "5") none "sum" none).1.success = true := by
  exact ⟨by decide, rfl⟩

/-- C4 amended: parse_quiz_response follows the two-phase policy exactly
(direct decode, then greedy first-bracket-to-last-bracket span); a
response with no opening bracket that is not itself valid JSON fails both
phases; and whenever both phases fail, generate_quiz returns the failure
outcome with an error message and an empty quiz, raising nothing. -/
theorem C4_policy_and_failure (cfg : Config) (llm : LLM) (modelName : Option String)
    (summary : String) (nq : Option Nat) (resp : String)
    (hok : get_llm cfg modelName = Except.ok ())
    (hresp : llm (Prompt.quiz summary (nq.getD DEFAULT_NUM_QUESTIONS)) = Except.ok resp) :
    (∀ r : String, parse_quiz_response r = parsePolicySpec r) ∧
    (∀ r : String, '[' ∉ r.data → jsonLoads r = none → parse_quiz_response r = none) ∧
    (parse_quiz_response resp = none →
      generate_quiz cfg llm modelName summary nq =
        ({ success := false, quiz := Json.arr [],
           error := some "Failed to parse quiz response. Please try again." },
         [Prompt.quiz summary (nq.getD DEFAULT_NUM_QUESTIONS)])) := by
  refine ⟨?_, ?_, ?_⟩
  · intro r
    unfold parse_quiz_response parsePolicySpec
    cases hj : jsonLoads r with
    | some v => rfl
    | none => cases hb : bracketSpan r.data <;> simp [Option.orElse]
  · intro r hnb hjl
    unfold parse_quiz_response
    rw [hjl]
    have hfind : ∀ l : List Char, '[' ∉ l → l.findIdx? (fun c => c = '[') = none := by
      intro l hl
      induction l with
      | nil => rfl
      | cons c rest ih =>
        have hc : ¬ (c = '[') := fun h => hl (h ▸ List.mem_cons_self c rest)
        have h2 := ih (fun h => hl (List.mem_cons_of_mem c h))
        simp [List.findIdx?_cons, hc, h2]
    have hb : bracketSpan r.data = none := by
      unfold bracketSpan
      rw [hfind r.data hnb]
    rw [hb]
  · intro hpr
    simp [generate_quiz, hok, hresp, hpr]

/-- Witness for C4 amended at a concrete bracket-free response. -/
theorem C4_policy_and_failure_witness :
    get_llm ⟨"key", ""⟩ none = Except.ok () ∧
    parse_quiz_response "no array" = none ∧
    generate_quiz ⟨"key", ""⟩ (fun _ => Except.ok "no array") none "sum" none =
      ({ success := false, quiz := Json.arr [],
         error := some "Failed to parse quiz response. Please try again." },
       [Prompt.quiz "sum" 5]) :=
  ⟨rfl, rfl,
    (C4_policy_and_failure ⟨"key", ""⟩ (fun _ => Except.ok "no array") none "sum" none
      "no array" rfl rfl).2.2 rfl⟩

/-- C5: in process_content, a summarization failure leaves both summary
and quiz unset and no quiz prompt is ever sent, while a quiz failure after
a successful summarization preserves the summary and only leaves the quiz
unset. -/
theorem C5_stage_gating (cfg : Config) (llm : LLM) (extractResult : ExtractResult)
    (nq : Nat) (modelName : String) (hex : extractResult.success = true) :
    ((summarize_text cfg llm (some modelName) extractResult.text).1.success = false →
      (process_content cfg llm extractResult nq modelName).1.summary = none ∧
      (process_content cfg llm extractResult nq modelName).1.quiz = none ∧
      ∀ s n, Prompt.quiz s n ∉ (process_content cfg llm extractResult nq modelName).2) ∧
    ((summarize_text cfg llm (some modelName) extractResult.text).1.success = true →
      (generate_quiz cfg llm (some modelName)
          (summarize_text cfg llm (some modelName) extractResult.text).1.summary
          (some nq)).1.success = false →
      (process_content cfg llm extractResult nq modelName).1.summary =
        some (summarize_text cfg llm (some modelName) extractResult.text).1.summary ∧
      (process_content cfg llm extractResult nq modelName).1.quiz = none) := by
  constructor
  · intro hsf
    rcases hsum : summarize_text cfg llm (some modelName) extractResult.text with ⟨sres, strace⟩
    have hsf2 : sres.success = false := by
      rw [hsum] at hsf
      exact hsf
    have heq : process_content cfg llm extractResult nq modelName =
        ({ extractedText := some extractResult.text, summary := none, quiz := none },
         strace) := by
      simp [process_content, hex, hsum, hsf2]
    rw [heq]
    refine ⟨rfl, rfl, ?_⟩
    intro s n hmem
    exact summ_trace_no_quiz cfg llm (some modelName) extractResult.text (Prompt.quiz s n)
      (by rw [hsum]; exact hmem) s n rfl
  · intro hst hqf
    rcases hsum : summarize_text cfg llm (some modelName) extractResult.text with ⟨sres, strace⟩
    have hst2 : sres.success = true := by
      rw [hsum] at hst
      exact hst
    rcases hq : generate_quiz cfg llm (some modelName) sres.summary (some nq) with ⟨qres, qtrace⟩
    have hqf2 : qres.success = false := by
      rw [hsum] at hqf
      simp at hqf
      rw [hq] at hqf
      exact hqf
    have heq : process_content cfg llm extractResult nq modelName =
        ({ extractedText := some extractResult.text, summary := some sres.summary,
           quiz := none }, strace ++ qtrace) := by
      simp [process_content, hex, hsum, hst2, hq, hqf2]
    simp [heq, hsum]

/-- Witness for C5: with an always-raising model the summary stage fails
and the pipeline sends no quiz prompt and stores nothing. -/
theorem C5_stage_gating_witness :
    ({ success := true, text := "x", error := none } : ExtractResult).success = true ∧
    (summarize_text ⟨"key", ""⟩ (fun _ => Except.error "boom")
      (some "Gemini 2.5 Pro") "x").1.success = false ∧
    ((process_content ⟨"key", ""⟩ (fun _ => Except.error "boom")
        { success := true, text := "x", error := none } 5 "Gemini 2.5 Pro").1.summary = none ∧
      (process_content ⟨"key", ""⟩ (fun _ => Except.error "boom")
        { success := true, text := "x", error := none } 5 "Gemini 2.5 Pro").1.quiz = none ∧
      ∀ s n, Prompt.quiz s n ∉ (process_content ⟨"key", ""⟩ (fun _ => Except.error "boom")
        { success := true, text := "x", error := none } 5 "Gemini 2.5 Pro").2) :=
  ⟨rfl, rfl,
    (C5_stage_gating ⟨"key", ""⟩ (fun _ => Except.error "boom")
      { success := true, text := "x", error := none } 5 "Gemini 2.5 Pro" rfl).1 rfl⟩

/-- C7 counterexample: chunking drops whitespace at boundaries, so no
de-duplication of overlaps can reconstruct the original text: with chunk
size 5 and overlap 0 the text splits into two chunks that lost the
separating space. -/
theorem C7_counterexample :
    chunk_text "aaaa bbbb" (some 5) (some 0) = ["aaaa", "bbbb"] ∧
    ∀ k : Nat, ("aaaa" : String).data ++ (("bbbb" : String).data.drop k) ≠
      ("aaaa bbbb" : String).data := by
  constructor
  · decide
  · intro k h
    have h2 := congrArg List.length h
    rw [List.length_append, List.length_drop] at h2
    have e1 : ("aaaa" : String).data.length = 4 := rfl
    have e2 : ("bbbb" : String).data.length = 4 := rfl
    have e3 : ("aaaa bbbb" : String).data.length = 9 := rfl
    rw [e1, e2, e3] at h2
    omega

/-- C7 amended: on the splitting path every chunk respects the maximum
size (the character-level fallback splits even an overlong word), and
every chunk is a contiguous substring of the input; exact reconstruction
by de-duplicating overlaps fails because boundary whitespace is dropped. -/
theorem C7_chunk_bounds (text : String) (ms co : Nat) (h1 : 1 ≤ ms)
    (h2 : text.length > ms) :
    ∀ c ∈ chunk_text text (some ms) (some co),
      c.length ≤ ms ∧ c.data <:+: text.data := by
  intro c hc
  unfold chunk_text at hc
  simp only [Option.getD_some] at hc
  rw [if_neg (by omega : ¬ text.length ≤ ms)] at hc
  rw [List.mem_map] at hc
  rcases hc with ⟨l, hl, rfl⟩
  constructor
  · exact splitText_length ms co h1 pySeparators (by decide) text.data l hl
  · exact splitText_substr ms co pySeparators text.data l hl

/-- Witness for C7 amended at a concrete split input. -/
theorem C7_chunk_bounds_witness :
    1 ≤ 6 ∧ ("hello world" : String).length > 6 ∧
    ∀ c ∈ chunk_text "hello world" (some 6) (some 0),
      c.length ≤ 6 ∧ c.data <:+: ("hello world" : String).data :=
  ⟨by decide, by decide, C7_chunk_bounds "hello world" 6 0 (by decide) (by decide)⟩

/-- C8 counterexample: a text no longer than the chunk size is returned
verbatim as the single chunk, so the empty text yields an empty chunk. -/
theorem C8_counterexample :
    chunk_text "" none none = [""] ∧ "" ∈ chunk_text "" none none :=
  ⟨rfl, by decide⟩

/-- C8 amended: on the splitting path, with a chunk size of at least two,
no chunk is empty and no chunk starts or ends with whitespace (so none is
whitespace-only); a text within the chunk size is returned verbatim. -/
theorem C8_no_empty_chunks (text : String) (ms co : Nat) (h2 : 2 ≤ ms)
    (hlen : text.length > ms) :
    ∀ c ∈ chunk_text text (some ms) (some co),
      c ≠ "" ∧
      (∀ a t, c.data = a :: t → isPyWs a = false) ∧
      (∀ a t, c.data = t ++ [a] → isPyWs a = false) := by
  intro c hc
  unfold chunk_text at hc
  simp only [Option.getD_some] at hc
  rw [if_neg (by omega : ¬ text.length ≤ ms)] at hc
  rw [List.mem_map] at hc
  rcases hc with ⟨l, hl, rfl⟩
  rcases splitText_shape ms co h2 pySeparators (by decide) text.data l hl with ⟨w, hw, hne⟩
  refine ⟨?_, ?_, ?_⟩
  · intro hceq
    have hdata : l = [] := congrArg String.data hceq
    rw [hw] at hdata
    exact hne hdata
  · intro a t hat
    have hat2 : pyStrip w = a :: t := by rw [← hw]; exact hat
    exact pyStrip_head w a t hat2
  · intro a t hat
    have hat2 : pyStrip w = t ++ [a] := by rw [← hw]; exact hat
    exact pyStrip_last w a t hat2

/-- Witness for C8 amended at a concrete split input. -/
theorem C8_no_empty_chunks_witness :
    2 ≤ 2 ∧ ("a b" : String).length > 2 ∧
    ∀ c ∈ chunk_text "a b" (some 2) (some 0),
      c ≠ "" ∧
      (∀ a t, c.data = a :: t → isPyWs a = false) ∧
      (∀ a t, c.data = t ++ [a] → isPyWs a = false) :=
  ⟨by decide, by decide, C8_no_empty_chunks "a b" 2 0 (by decide) (by decide)⟩

end Summarizer
